import Mathlib

/-!
Verification development for the nostrdownload retrieval engine.

The definitions below are a shallow embedding of the TypeScript sources:
  * src/lib/nostr.ts  (index/manifest resolution, chunk retrieval, cache)
  * src/lib/crypto.ts (NIP-44 decryption entry points, base64 helpers)
  * src/lib/keys.ts   (key normalization and validation)

Conventions of the embedding:
  * JavaScript numbers that hold parsed integers are modelled as Int
    (parseInt can produce negative values); counts and sizes as Nat.
  * JavaScript Map objects are modelled as association lists that keep
    insertion order and unique keys (mapSet overwrites in place, appends
    new keys at the end, exactly like Map.prototype.set).
  * Functions that can throw return Option/Except.
  * External collaborators (relay pool, nostr-tools nip19/nip44) are
    passed in as explicit function parameters: the embedding quantifies
    over their behaviour.
  * String-processing primitives of JS (parseInt, split(':'), trim,
    toLowerCase, startsWith, atob, btoa, TextEncoder) are reimplemented
    on List Char following the ECMAScript / WHATWG algorithms.
-/

/-- Whitespace accepted by JS parseInt (StrWhiteSpaceChar: the common
WhiteSpace and LineTerminator code points). -/
def isJsWs (c : Char) : Bool :=
  c.toNat = 9 || c.toNat = 10 || c.toNat = 11 || c.toNat = 12 || c.toNat = 13 ||
  c.toNat = 32 || c.toNat = 160 || c.toNat = 0x2028 || c.toNat = 0x2029 || c.toNat = 0xfeff

/-- Value of a run of decimal digit characters. -/
def digitsVal (ds : List Char) : Nat :=
  ds.foldl (fun a c => a * 10 + (c.toNat - 48)) 0

/-- JS parseInt(s, 10): skip leading whitespace, optional sign, then the
longest run of decimal digits; NaN (none) when there is no digit. -/
def parseIntJs (s : String) : Option Int :=
  let cs := s.toList.dropWhile isJsWs
  let signAndRest : Int × List Char :=
    match cs with
    | '-' :: rest => (-1, rest)
    | '+' :: rest => (1, rest)
    | _ => (1, cs)
  let digits := signAndRest.2.takeWhile (fun c => c.isDigit)
  if digits.isEmpty then none
  else some (signAndRest.1 * (digitsVal digits : Int))

/-- JS String.prototype.split(':') on the character list. -/
def splitOnColon : List Char → List (List Char)
  | [] => [[]]
  | c :: rest =>
    let r := splitOnColon rest
    if c = ':' then [] :: r
    else
      match r with
      | h :: t => (c :: h) :: t
      | [] => [[c]]

/-- JS Array.prototype.find over tags for a tag whose first element is
the given name (t[0] === name). -/
def findTag (tags : List (List String)) (name : String) : Option (List String) :=
  tags.find? (fun t => t.head? = some name)

/-- src/lib/nostr.ts parseChunkIndexFromTags: explicit 'chunk' tag first
(its value must be truthy, i.e. a non-empty string, and parse as an
integer), otherwise the trailing colon-delimited segment of the 'd' tag. -/
def parseChunkIndexFromTags (tags : List (List String)) : Option Int :=
  let fromChunkTag : Option Int :=
    match findTag tags "chunk" with
    | some t =>
      match t.get? 1 with
      | some s => if s = "" then none else parseIntJs s
      | none => none
    | none => none
  match fromChunkTag with
  | some i => some i
  | none =>
    let dTag : Option String := (findTag tags "d").bind (fun t => t.get? 1)
    match dTag with
    | none => none
    | some d =>
      if d = "" then none
      else
        let parts := splitOnColon d.toList
        let indexStr := parts.getLastD []
        parseIntJs (String.mk indexStr)

/-- ChunkEvent as in src/lib/nostr.ts. -/
structure ChunkEvent where
  index : Int
  content : String
  encryption : String
deriving DecidableEq, Repr

/-- An incoming chunk record delivered by a subscription
({ id, tags, content }). -/
structure ChunkRecord where
  id : String
  tags : List (List String)
  content : String
deriving DecidableEq, Repr

/-- ChunkInfo entry of a manifest (index plus originating event id). -/
structure ChunkInfo where
  index : Int
  event_id : String
deriving DecidableEq, Repr

/-- Map.prototype.set on an insertion-ordered association list:
overwrite in place when the key exists, append otherwise. -/
def mapSet {κ β : Type} [DecidableEq κ] (m : List (κ × β)) (k : κ) (v : β) : List (κ × β) :=
  if m.any (fun p => decide (p.1 = k)) then
    m.map (fun p => if p.1 = k then (k, v) else p)
  else m ++ [(k, v)]

/-- Map.prototype.get. -/
def mapGet {κ β : Type} [DecidableEq κ] (m : List (κ × β)) (k : κ) : Option β :=
  (m.find? (fun p => decide (p.1 = k))).map (fun p => p.2)

/-- indexByEventId built from the manifest's chunk_infos
(info?.event_id truthy means a non-empty string). -/
def buildIndexByEventId (chunkInfos : List ChunkInfo) : List (String × Int) :=
  chunkInfos.foldl
    (fun m info => if info.event_id = "" then m else mapSet m info.event_id info.index) []

/-- Mutable state threaded through fetchChunks' event handling:
the local chunksByIndex map, the seen-event-id set, the shared cache
entry's map for this key, and the log of onProgress counts. -/
structure FetchState where
  chunksByIndex : List (Int × ChunkEvent)
  seenEventIds : List String
  cacheEntry : List (Int × ChunkEvent)
  progressLog : List Nat
deriving DecidableEq, Repr

/-- handleEvent from fetchChunks (src/lib/nostr.ts lines 408-431):
dedupe by event id; index from tags, falling back to the manifest's
indexByEventId map; encryption tag value (default "none"); first-writer
wins per index; inserts also into the shared cache entry; onProgress
with the new size after each insertion. -/
def handleEvent (indexByEventId : List (String × Int)) (st : FetchState)
    (event : ChunkRecord) : FetchState :=
  if st.seenEventIds.contains event.id then st
  else
    let st1 : FetchState := { st with seenEventIds := st.seenEventIds ++ [event.id] }
    let parsedIndex := parseChunkIndexFromTags event.tags
    let index? : Option Int :=
      match parsedIndex with
      | some i => some i
      | none => mapGet indexByEventId event.id
    match index? with
    | none => st1
    | some index =>
      let encryption : String :=
        match (findTag event.tags "encryption").bind (fun t => t.get? 1) with
        | some s => if s = "" then "none" else s
        | none => "none"
      if st1.chunksByIndex.any (fun p => decide (p.1 = index)) then st1
      else
        let chunk : ChunkEvent := { index := index, content := event.content, encryption := encryption }
        { st1 with
          chunksByIndex := st1.chunksByIndex ++ [(index, chunk)]
          cacheEntry := mapSet st1.cacheEntry index chunk
          progressLog := st1.progressLog ++ [st1.chunksByIndex.length + 1] }

example : parseChunkIndexFromTags [["chunk", "7"]] = some 7 := by decide
example : parseChunkIndexFromTags [["d", "abc:12"]] = some 12 := by decide
example : parseChunkIndexFromTags [["chunk", "x"], ["d", "abc:3"]] = some 3 := by decide
example : parseChunkIndexFromTags [["e", "y"]] = none := by decide
example : parseChunkIndexFromTags [["d", "abc:"]] = none := by decide

/-- Record kinds from src/lib/types.ts.  Modelled from the spec: types.ts
is not among the provided sources; section 6 of the spec lists the three
kinds INDEX, MANIFEST and CHUNK consumed in filters. -/
inductive Kind where
  | INDEX
  | MANIFEST
  | CHUNK
deriving DecidableEq, Repr

/-- Relay filter shape consumed from nostr-tools (the fields this
code base uses). -/
structure NostrFilter where
  kinds : List Kind := []
  authors : List String := []
  dTags : List String := []
  xTags : List String := []
  ids : List String := []
  limit : Option Nat := none
deriving DecidableEq, Repr

/-- D_TAGS.CURRENT_INDEX.  Modelled from the spec: types.ts is not among
the provided sources; the spec says page 1 maps to a constant
"current index" addressing tag. -/
def D_TAGS.CURRENT_INDEX : String := "nostrsave-index-current"

/-- Base of an archive addressing tag, see D_TAGS.archiveTag. -/
def archiveTagBase : String := "nostrsave-archive-"

/-- D_TAGS.archiveTag.  Modelled from the spec: types.ts is not among the
provided sources; the spec says an archive tag carries the archive
number as its numeric suffix. -/
def D_TAGS.archiveTag (n : Int) : String := archiveTagBase ++ toString n

/-- src/lib/nostr.ts getDTagForPage: page 1 is the current index,
page N > 1 the archive numbered totalArchives + 2 - page. -/
def getDTagForPage (page : Int) (totalArchives : Int) : String :=
  if page = 1 then D_TAGS.CURRENT_INDEX
  else
    let archiveNumber := totalArchives + 2 - page
    D_TAGS.archiveTag archiveNumber

/-- A relay event as consumed by the index/manifest resolvers: its
creation timestamp and the result of JSON.parse on its content
(none models a payload that fails to parse). -/
structure REvent (α : Type) where
  created_at : Int
  parsed : Option α
deriving DecidableEq, Repr

/-- FileIndex (version-gated; total_archives drives pagination). -/
structure FileIndex where
  version : Int
  total_archives : Int
deriving DecidableEq, Repr

/-- Manifest (version-gated; total_chunks is the expected chunk count). -/
structure Manifest where
  version : Int
  total_chunks : Nat
deriving DecidableEq, Repr

/-- Errors thrown past the resolver layer. -/
inductive NostrError where
  | unsupportedVersion (v : Int)
deriving DecidableEq, Repr

/-- events.reduce((a, b) => a.created_at > b.created_at ? a : b). -/
def latestOf {α : Type} (e : REvent α) (rest : List (REvent α)) : REvent α :=
  rest.foldl (fun a b => if a.created_at > b.created_at then a else b) e

/-- Filter used by fetchFileIndex for a given d-tag. -/
def indexFilter (pubkey : String) (dTag : String) : NostrFilter :=
  { kinds := [.INDEX], authors := [pubkey], dTags := [dTag], limit := some 1 }

/-- src/lib/nostr.ts fetchFileIndex, page = 1 branch: query the current
index tag, take the most recent event, parse (parse failure returns
null), and gate on version 2. -/
def fetchFileIndexPage1 (query : NostrFilter → List (REvent FileIndex)) (pubkey : String) :
    Except NostrError (Option FileIndex) :=
  match query (indexFilter pubkey D_TAGS.CURRENT_INDEX) with
  | [] => .ok none
  | e :: rest =>
    let event := latestOf e rest
    match event.parsed with
    | none => .ok none
    | some index =>
      if index.version ≠ 2 then .error (.unsupportedVersion index.version)
      else .ok (some index)

/-- src/lib/nostr.ts fetchFileIndex: archive pages first resolve page 1
to learn total_archives, then query the computed archive tag with the
same most-recent / parse / version-gate logic. -/
def fetchFileIndex (query : NostrFilter → List (REvent FileIndex)) (pubkey : String)
    (page : Int) : Except NostrError (Option FileIndex) :=
  if page = 1 then fetchFileIndexPage1 query pubkey
  else
    match fetchFileIndexPage1 query pubkey with
    | .error err => .error err
    | .ok none => .ok none
    | .ok (some currentIndex) =>
      let dTag := getDTagForPage page currentIndex.total_archives
      match query (indexFilter pubkey dTag) with
      | [] => .ok none
      | e :: rest =>
        let event := latestOf e rest
        match event.parsed with
        | none => .ok none
        | some index =>
          if index.version ≠ 2 then .error (.unsupportedVersion index.version)
          else .ok (some index)

/-- The first manifest filter fetchManifest tries (content-hash #x tag). -/
def manifestXFilter (pubkey fileHash : String) : NostrFilter :=
  { kinds := [.MANIFEST], authors := [pubkey], xTags := [fileHash], limit := some 1 }

/-- The fallback manifest filter (file-identifier #d tag). -/
def manifestDFilter (pubkey fileHash : String) : NostrFilter :=
  { kinds := [.MANIFEST], authors := [pubkey], dTags := [fileHash], limit := some 1 }

/-- The filter list fetchManifest iterates over, in order. -/
def manifestFilters (pubkey fileHash : String) : List NostrFilter :=
  [manifestXFilter pubkey fileHash, manifestDFilter pubkey fileHash]

/-- The for-loop of fetchManifest: query each filter in turn, stopping at
the first that returns any events.  Returns the filters actually issued
and the accepted event list. -/
def runManifestQueries (query : NostrFilter → List (REvent Manifest)) :
    List NostrFilter → List NostrFilter × List (REvent Manifest)
  | [] => ([], [])
  | f :: fs =>
    let events := query f
    if events.length > 0 then ([f], events)
    else
      let r := runManifestQueries query fs
      (f :: r.1, r.2)

/-- src/lib/nostr.ts fetchManifest: two tag conventions in sequence,
most-recent winner, parse-failure returns null, version gate. -/
def fetchManifest (query : NostrFilter → List (REvent Manifest)) (pubkey fileHash : String) :
    Except NostrError (Option Manifest) :=
  let events := (runManifestQueries query (manifestFilters pubkey fileHash)).2
  match events with
  | [] => .ok none
  | e :: rest =>
    let event := latestOf e rest
    match event.parsed with
    | none => .ok none
    | some manifest =>
      if manifest.version ≠ 2 then .error (.unsupportedVersion manifest.version)
      else .ok (some manifest)


/-- CHUNK_ID_BATCH_SIZE from src/lib/nostr.ts. -/
def CHUNK_ID_BATCH_SIZE : Nat := 200

/-- ids.slice(i, i + CHUNK_ID_BATCH_SIZE) for i = 0, 200, 400, ... -/
def toBatches (l : List String) : List (List String) :=
  if h : l = [] then []
  else l.take CHUNK_ID_BATCH_SIZE :: toBatches (l.drop CHUNK_ID_BATCH_SIZE)
termination_by l.length
decreasing_by
  simp only [List.length_drop, CHUNK_ID_BATCH_SIZE]
  have hl : 0 < l.length := List.length_pos.mpr h
  omega

/-- One fetchChunkEventsWithFilters round: the events a subscription
delivers are processed in arrival order by handleEvent; as soon as the
running distinct-chunk count reaches totalChunks the subscriptions are
closed (shouldStop, checked after each delivered event) and the rest of
the stream is discarded. -/
def runRound (indexByEventId : List (String × Int)) (totalChunks : Nat) :
    FetchState → List ChunkRecord → FetchState
  | st, [] => st
  | st, ev :: evs =>
    let st2 := handleEvent indexByEventId st ev
    if totalChunks ≤ st2.chunksByIndex.length then st2
    else runRound indexByEventId totalChunks st2 evs

/-- Filter of one direct-phase ids batch. -/
def idsFilter (pubkey : String) (batch : List String) : NostrFilter :=
  { kinds := [.CHUNK], authors := [pubkey], ids := batch }

/-- Filter of the fallback phase (all chunks of the file by #x tag). -/
def chunksXFilter (pubkey fileHash : String) : NostrFilter :=
  { kinds := [.CHUNK], authors := [pubkey], xTags := [fileHash] }

/-- The direct phase of fetchChunks: one subscription per ids batch,
breaking out of the loop once totalChunks distinct chunks are known.
The network is modelled as a function from the filter of a subscription
to the list of events it delivers, in arrival order.  Also returns the
filters actually issued. -/
def runBatches (net : NostrFilter → List ChunkRecord) (pubkey : String)
    (indexByEventId : List (String × Int)) (totalChunks : Nat) :
    FetchState → List (List String) → FetchState × List NostrFilter
  | st, [] => (st, [])
  | st, b :: bs =>
    let f := idsFilter pubkey b
    let st2 := runRound indexByEventId totalChunks st (net f)
    if totalChunks ≤ st2.chunksByIndex.length then (st2, [f])
    else
      let r := runBatches net pubkey indexByEventId totalChunks st2 bs
      (r.1, f :: r.2)

/-- Insert a chunk into a list sorted ascending by index. -/
def insertByIndex (c : ChunkEvent) : List ChunkEvent → List ChunkEvent
  | [] => [c]
  | x :: xs => if c.index ≤ x.index then c :: x :: xs else x :: insertByIndex c xs

/-- Array.from(chunksByIndex.values()).sort((a, b) => a.index - b.index):
sort ascending by index (indices in the map are pairwise distinct, so
the sort order is unique). -/
def sortChunks : List ChunkEvent → List ChunkEvent
  | [] => []
  | x :: xs => insertByIndex x (sortChunks xs)

/-- The body of the fetchPromise inside fetchChunks (src/lib/nostr.ts
lines 407-479): direct phase over the manifest event ids when any are
known, then the fallback #x-tag phase when the count is still short,
then the collected chunks sorted ascending by index.  Returns the final
state, the returned chunk list, and the filters issued. -/
def runBody (net : NostrFilter → List ChunkRecord) (pubkey fileHash : String)
    (totalChunks : Nat) (indexByEventId : List (String × Int)) (st0 : FetchState) :
    FetchState × List ChunkEvent × List NostrFilter :=
  let direct :=
    if indexByEventId.length > 0 then
      runBatches net pubkey indexByEventId totalChunks st0
        (toBatches (indexByEventId.map (fun p => p.1)))
    else (st0, [])
  let st1 := direct.1
  let withFallback :=
    if st1.chunksByIndex.length < totalChunks then
      let f := chunksXFilter pubkey fileHash
      (runRound indexByEventId totalChunks st1 (net f), [f])
    else (st1, ([] : List NostrFilter))
  let st2 := withFallback.1
  (st2, sortChunks (st2.chunksByIndex.map (fun p => p.2)), direct.2 ++ withFallback.2)

/-- Outcome of one call to fetchChunks: returned chunks, the cache entry
map for the key afterwards, and the subscription filters issued. -/
structure FetchOutcome where
  result : List ChunkEvent
  cacheAfter : Option (List (Int × ChunkEvent))
  issuedFilters : List NostrFilter
deriving DecidableEq, Repr

/-- fetchChunks when the cache entry for the key is short or absent and
no operation is in flight: local chunksByIndex starts as a copy of the
cached map, the cache entry (created here when absent) is a map equal to
the cached one, onProgress fires once up front when the copy is
non-empty, then the fetch body runs. -/
def fetchChunksMiss (net : NostrFilter → List ChunkRecord) (pubkey fileHash : String)
    (totalChunks : Nat) (chunkInfos : List ChunkInfo)
    (m0 : List (Int × ChunkEvent)) : FetchOutcome :=
  let indexByEventId := buildIndexByEventId chunkInfos
  let st0 : FetchState :=
    { chunksByIndex := m0
      seenEventIds := []
      cacheEntry := m0
      progressLog := if 0 < m0.length then [m0.length] else [] }
  let r := runBody net pubkey fileHash totalChunks indexByEventId st0
  { result := r.2.1, cacheAfter := some r.1.cacheEntry, issuedFilters := r.2.2 }

/-- src/lib/nostr.ts fetchChunks (lines 367-497) for a single caller
with no operation in flight for the key (cached?.inFlight is undefined,
so the await-and-recheck branch is not taken): when the cached entry
already holds exactly totalChunks indices the cached chunks are returned
sorted, with no subscription issued and the cache untouched; otherwise
the fetch body runs against the network. -/
def fetchChunksOnce (net : NostrFilter → List ChunkRecord) (pubkey fileHash : String)
    (totalChunks : Nat) (chunkInfos : List ChunkInfo)
    (cached : Option (List (Int × ChunkEvent))) : FetchOutcome :=
  match cached with
  | some m =>
    if m.length = totalChunks then
      { result := sortChunks (m.map (fun p => p.2)), cacheAfter := some m, issuedFilters := [] }
    else fetchChunksMiss net pubkey fileHash totalChunks chunkInfos m
  | none => fetchChunksMiss net pubkey fileHash totalChunks chunkInfos []

/-- Events of the two-caller execution trace: a retrieval operation
starting, a retrieval operation settling, a caller returning
(true = the first caller A, false = the second caller B). -/
inductive TraceEv where
  | opStart (n : Nat)
  | opSettle (n : Nat)
  | callerReturn (isA : Bool)
deriving DecidableEq, Repr

/-- Number of retrieval operations started in a trace. -/
def opsStartedIn (tr : List TraceEv) : Nat :=
  tr.countP (fun e => match e with | .opStart _ => true | _ => false)

/-- Running in-flight count bookkeeping for maxInFlight. -/
def maxInFlightAux : List TraceEv → Int → Int → Int
  | [], _, acc => acc
  | e :: es, cur, acc =>
    let cur2 := cur + (match e with | .opStart _ => 1 | .opSettle _ => -1 | _ => 0)
    maxInFlightAux es cur2 (max acc cur2)

/-- Largest number of retrieval operations simultaneously in flight at
any point of a trace. -/
def maxInFlight (tr : List TraceEv) : Int := maxInFlightAux tr 0 0

/-- The local FetchState a caller starts from when its local map copies
the shared entry map m. -/
def startState (m : List (Int × ChunkEvent)) : FetchState :=
  { chunksByIndex := m
    seenEventIds := []
    cacheEntry := m
    progressLog := if 0 < m.length then [m.length] else [] }

/-- Outcome of the two-caller scenario. -/
structure TwoOutcome where
  trace : List TraceEv
  aResult : List ChunkEvent
  bResult : List ChunkEvent
  finalEntry : List (Int × ChunkEvent)
  inFlightAfter : Bool
deriving DecidableEq, Repr

/-- Two concurrent calls to fetchChunks for the same (pubkey, fileHash)
key, starting from an empty cache, executed under the JS event-loop
semantics (code between awaits runs atomically; reactions to a settled
promise run in registration order).

Caller A finds no cache entry, creates one, starts operation 1 and
stores it as the entry's inFlight handle, then awaits it.  Caller B
arrives while operation 1 is in flight, before any chunk event has been
delivered: B reads the entry, whose map is empty; if totalChunks is 0
the size check at the top of fetchChunks already matches and B returns
the (empty) cached set immediately; otherwise B awaits the inFlight
promise.  Operation 1 settles; A's continuation was registered first,
so A's finally-block clears the inFlight handle and A returns its
sorted chunk list before B resumes.  B then re-reads the entry: when it
now holds exactly totalChunks chunks B returns them sorted; otherwise B
starts a fresh operation 2 (its local map copying the entry), stores it
as the inFlight handle, and on settlement clears the handle and returns.
net1/net2 are the event streams the relays deliver to the subscriptions
of operation 1 and operation 2 respectively. -/
def twoCallerRun (net1 net2 : NostrFilter → List ChunkRecord)
    (pubkey fileHash : String) (totalChunks : Nat)
    (chunkInfos : List ChunkInfo) : TwoOutcome :=
  let indexByEventId := buildIndexByEventId chunkInfos
  let r1 := runBody net1 pubkey fileHash totalChunks indexByEventId (startState [])
  let st1 := r1.1
  if totalChunks = 0 then
    -- B's size === totalChunks check matched at arrival (0 = 0).
    { trace := [.opStart 1, .callerReturn false, .opSettle 1, .callerReturn true]
      aResult := r1.2.1
      bResult := sortChunks ([] : List ChunkEvent)
      finalEntry := st1.cacheEntry
      inFlightAfter := false }
  else if st1.cacheEntry.length = totalChunks then
    -- B re-checks after the settle and finds the entry complete.
    { trace := [.opStart 1, .opSettle 1, .callerReturn true, .callerReturn false]
      aResult := r1.2.1
      bResult := sortChunks (st1.cacheEntry.map (fun p => p.2))
      finalEntry := st1.cacheEntry
      inFlightAfter := false }
  else
    -- B re-checks, finds the entry short, and starts a fresh operation.
    let r2 := runBody net2 pubkey fileHash totalChunks indexByEventId
      (startState st1.cacheEntry)
    { trace := [.opStart 1, .opSettle 1, .callerReturn true,
                .opStart 2, .opSettle 2, .callerReturn false]
      aResult := r1.2.1
      bResult := r2.2.1
      finalEntry := r2.1.cacheEntry
      inFlightAfter := false }

/-- The base64 alphabet used by btoa/atob. -/
def b64Chars : String :=
  "ABCDEFGHIJKLMNOPQRSTUVWXYZabcdefghijklmnopqrstuvwxyz0123456789+/"

/-- The base64 alphabet as a character list. -/
def b64CharList : List Char := b64Chars.toList

/-- Character of a 6-bit value. -/
def sextetToChar (n : Nat) : Char := b64CharList.getD n 'A'

/-- Index search within the alphabet, carrying the running position. -/
def charToSextetAux (c : Char) : List Char → Nat → Option Nat
  | [], _ => none
  | x :: xs, i => if x = c then some i else charToSextetAux c xs (i + 1)

/-- 6-bit value of an alphabet character, none outside the alphabet. -/
def charToSextet (c : Char) : Option Nat := charToSextetAux c b64CharList 0

/-- btoa on the code points of a binary string: groups of three bytes
become four sextet characters; a final group of one or two bytes is
padded with '=' as per RFC 4648. -/
def btoaList : List Nat → List Char
  | [] => []
  | [a] => [sextetToChar (a / 4), sextetToChar (a % 4 * 16), '=', '=']
  | [a, b] => [sextetToChar (a / 4), sextetToChar (a % 4 * 16 + b / 16),
               sextetToChar (b % 16 * 4), '=']
  | a :: b :: c :: rest =>
    [sextetToChar (a / 4), sextetToChar (a % 4 * 16 + b / 16),
     sextetToChar (b % 16 * 4 + c / 64), sextetToChar (c % 64)] ++ btoaList rest

/-- ASCII whitespace stripped by forgiving-base64 (TAB LF FF CR SPACE). -/
def isAsciiWs (c : Char) : Bool :=
  c.toNat = 9 || c.toNat = 10 || c.toNat = 12 || c.toNat = 13 || c.toNat = 32

/-- Remove one or two trailing '=' characters. -/
def removeTrailingEq (t : List Char) : List Char :=
  let t1 := if t.getLast? = some '=' then t.dropLast else t
  if t1.getLast? = some '=' then t1.dropLast else t1

/-- Decoding of a padding-free sextet-character sequence: groups of four
sextets yield three bytes; a trailing group of two or three sextets
yields one or two bytes (excess low bits are discarded, as in
forgiving-base64); a trailing single character is a length error, and a
character outside the alphabet fails. -/
def atobCore : List Char → Option (List Nat)
  | [] => some []
  | [_] => none
  | [c1, c2] => do
    let s1 ← charToSextet c1
    let s2 ← charToSextet c2
    some [s1 * 4 + s2 / 16]
  | [c1, c2, c3] => do
    let s1 ← charToSextet c1
    let s2 ← charToSextet c2
    let s3 ← charToSextet c3
    some [s1 * 4 + s2 / 16, s2 % 16 * 16 + s3 / 4]
  | c1 :: c2 :: c3 :: c4 :: rest => do
    let s1 ← charToSextet c1
    let s2 ← charToSextet c2
    let s3 ← charToSextet c3
    let s4 ← charToSextet c4
    let tail ← atobCore rest
    some ([s1 * 4 + s2 / 16, s2 % 16 * 16 + s3 / 4, s3 % 4 * 64 + s4] ++ tail)

/-- atob, following the WHATWG forgiving-base64 decode algorithm:
strip ASCII whitespace; when the length is a multiple of four remove up
to two trailing '='; fail when the remaining length is 1 mod 4 or when
any remaining character is '=' or outside the alphabet; decode the
sextets into bytes. -/
def atobList (s : List Char) : Option (List Nat) :=
  let noWs := s.filter (fun c => !isAsciiWs c)
  let t := if noWs.length % 4 = 0 then removeTrailingEq noWs else noWs
  if t.length % 4 = 1 then none
  else if t.any (fun c => decide (c = '=')) then none
  else atobCore t

/-- The sextet values btoa produces for a byte list, without the '='
padding (specification helper used to reason about btoaList). -/
def sextets : List Nat → List Nat
  | [] => []
  | [a] => [a / 4, a % 4 * 16]
  | [a, b] => [a / 4, a % 4 * 16 + b / 16, b % 16 * 4]
  | a :: b :: c :: rest =>
    [a / 4, a % 4 * 16 + b / 16, b % 16 * 4 + c / 64, c % 64] ++ sextets rest

/-- The '=' padding btoa appends for a byte list (specification
helper). -/
def padEqs : List Nat → List Char
  | [] => []
  | [_] => ['=', '=']
  | [_, _] => ['=']
  | _ :: _ :: _ :: rest => padEqs rest

/-- String.fromCharCode (truncates its argument to 16 bits). -/
def fromCharCode (n : Nat) : Char := Char.ofNat (n % 65536)

/-- src/lib/crypto.ts base64ToUint8Array: atob, then charCodeAt on each
character of the decoded binary string (the decoded bytes themselves).
none models the exception atob throws on invalid input. -/
def base64ToUint8Array (base64 : List Char) : Option (List Nat) :=
  atobList base64

/-- src/lib/crypto.ts uint8ArrayToBase64: build a binary string whose
character codes are the bytes (String.fromCharCode), then btoa over
those character codes. -/
def uint8ArrayToBase64 (bytes : List Nat) : List Char :=
  btoaList ((bytes.map fromCharCode).map Char.toNat)

example : atobList "QQ==".toList = some [65] := by decide
example : atobList (uint8ArrayToBase64 [0, 255, 77]) = some [0, 255, 77] := by decide
example : atobList "Q===".toList = none := by decide

/-- UTF-8 encoding of one Unicode scalar value. -/
def utf8EncodeChar (c : Char) : List Nat :=
  let n := c.toNat
  if n < 0x80 then [n]
  else if n < 0x800 then [0xc0 + n / 64, 0x80 + n % 64]
  else if n < 0x10000 then [0xe0 + n / 4096, 0x80 + n / 64 % 64, 0x80 + n % 64]
  else [0xf0 + n / 262144, 0x80 + n / 4096 % 64, 0x80 + n / 64 % 64, 0x80 + n % 64]

/-- new TextEncoder().encode(s): the UTF-8 bytes of the string. -/
def textEncoderEncode (s : String) : List Nat :=
  s.toList.flatMap utf8EncodeChar

/-- The nip44 collaborator consumed by src/lib/crypto.ts:
getConversationKey derives a shared key from (secret key, public key);
decrypt maps a ciphertext and a conversation key to the decrypted
string, or none when decryption throws. -/
structure Nip44 where
  getConversationKey : List Nat → String → List Nat
  decrypt : String → List Nat → Option String

/-- src/lib/crypto.ts decryptChunk: nip44 decrypt, then the UTF-8 bytes
of the decrypted string. -/
def decryptChunk (lib : Nip44) (ciphertext : String) (secretKey : List Nat)
    (pubkey : String) : Option (List Nat) :=
  let conversationKey := lib.getConversationKey secretKey pubkey
  (lib.decrypt ciphertext conversationKey).map (fun decrypted => textEncoderEncode decrypted)

/-- src/lib/crypto.ts decryptChunkBinary: nip44 decrypt, then base64
decoding of the decrypted string into bytes. -/
def decryptChunkBinary (lib : Nip44) (ciphertext : String) (secretKey : List Nat)
    (pubkey : String) : Option (List Nat) :=
  let conversationKey := lib.getConversationKey secretKey pubkey
  (lib.decrypt ciphertext conversationKey).bind
    (fun decrypted => base64ToUint8Array decrypted.toList)

/-- Result of nip19.decode, as far as this code base inspects it. -/
inductive Nip19Decoded where
  | npub (data : String)
  | nsec (data : List Nat)
  | other
deriving DecidableEq, Repr

/-- The nostr-tools nip19 collaborator consumed by src/lib/keys.ts:
decode maps a bech32 string to its decoded form, or none when it
throws. -/
structure Nip19 where
  decode : String → Option Nip19Decoded

/-- The nostr-tools pure collaborator: getPublicKey derives the hex
public key from a secret key. -/
structure NostrPure where
  getPublicKey : List Nat → String

/-- JS String.prototype.startsWith. -/
def startsWithJs (s p : String) : Bool :=
  decide (s.toList.take p.toList.length = p.toList)

/-- Whitespace removed by JS String.prototype.trim (WhiteSpace and
LineTerminator code points; the common ones). -/
def isJsTrimWs (c : Char) : Bool :=
  c.toNat = 9 || c.toNat = 10 || c.toNat = 11 || c.toNat = 12 || c.toNat = 13 ||
  c.toNat = 32 || c.toNat = 160 || c.toNat = 0x2028 || c.toNat = 0x2029 || c.toNat = 0xfeff

/-- JS String.prototype.trim: strip that whitespace from both ends. -/
def trimJs (s : String) : String :=
  String.mk (((s.toList.dropWhile isJsTrimWs).reverse.dropWhile isJsTrimWs).reverse)

/-- JS String.prototype.toLowerCase on one character, on the ASCII
range (sufficient for every input considered here). -/
def lowerChar (c : Char) : Char :=
  if 65 ≤ c.toNat && c.toNat ≤ 90 then fromCharCode (c.toNat + 32) else c

/-- JS String.prototype.toLowerCase (ASCII range). -/
def toLowerCaseJs (s : String) : String :=
  String.mk (s.toList.map lowerChar)

/-- A decimal or hexadecimal digit as matched by the character class
[0-9a-fA-F] of the regex in isValidHexPubkey. -/
def isHexDigitChar (c : Char) : Bool :=
  (48 ≤ c.toNat && c.toNat ≤ 57) || (97 ≤ c.toNat && c.toNat ≤ 102) ||
  (65 ≤ c.toNat && c.toNat ≤ 70)

/-- src/lib/keys.ts isValidHexPubkey: the regex
^[0-9a-fA-F]{64}$ — exactly 64 hex characters. -/
def isValidHexPubkey (input : String) : Bool :=
  decide (input.length = 64) && input.toList.all isHexDigitChar

/-- src/lib/keys.ts isValidNpub: a cheap discriminator check followed by
nip19.decode (a decode exception yields false). -/
def isValidNpub (lib : Nip19) (input : String) : Bool :=
  if !startsWithJs input "npub1" then false
  else
    match lib.decode input with
    | some (.npub _) => true
    | _ => false

/-- src/lib/keys.ts isValidNsec. -/
def isValidNsec (lib : Nip19) (input : String) : Bool :=
  if !startsWithJs input "nsec1" then false
  else
    match lib.decode input with
    | some (.nsec _) => true
    | _ => false

/-- src/lib/keys.ts npubToPublicKey (throws unless the decode result is
an npub). -/
def npubToPublicKey (lib : Nip19) (npub : String) : Option String :=
  match lib.decode npub with
  | some (.npub data) => some data
  | _ => none

/-- src/lib/keys.ts nsecToSecretKey (throws unless the decode result is
an nsec). -/
def nsecToSecretKey (lib : Nip19) (nsec : String) : Option (List Nat) :=
  match lib.decode nsec with
  | some (.nsec data) => some data
  | _ => none

/-- src/lib/keys.ts getPublicKeyFromSecret. -/
def getPublicKeyFromSecret (tools : NostrPure) (sk : List Nat) : String :=
  tools.getPublicKey sk

/-- Return value of normalizeToPublicKey. -/
structure NormalizedKey where
  pubkey : String
  secretKey : Option (List Nat)
deriving DecidableEq, Repr

/-- src/lib/keys.ts normalizeToPublicKey: trim, then try npub, nsec and
raw hex in that order; none models the thrown invalid-key-format
error. -/
def normalizeToPublicKey (lib : Nip19) (tools : NostrPure) (input : String) :
    Option NormalizedKey :=
  let trimmed := trimJs input
  if isValidNpub lib trimmed then
    (npubToPublicKey lib trimmed).map (fun pk => { pubkey := pk, secretKey := none })
  else if isValidNsec lib trimmed then
    (nsecToSecretKey lib trimmed).map
      (fun sk => { pubkey := getPublicKeyFromSecret tools sk, secretKey := some sk })
  else if isValidHexPubkey trimmed then
    some { pubkey := toLowerCaseJs trimmed, secretKey := none }
  else none

/-! ## Helper lemmas -/

theorem latestOf_cons {α : Type} (e b : REvent α) (bs : List (REvent α)) :
    latestOf e (b :: bs) =
      latestOf (if e.created_at > b.created_at then e else b) bs := rfl

theorem latestOf_mem {α : Type} :
    ∀ (bs : List (REvent α)) (e : REvent α), latestOf e bs ∈ e :: bs := by
  intro bs
  induction bs with
  | nil => intro e; simp [latestOf]
  | cons b bs ih =>
    intro e
    rw [latestOf_cons]
    rcases List.mem_cons.mp (ih (if e.created_at > b.created_at then e else b)) with h1 | h1
    · rw [h1]
      by_cases hc : e.created_at > b.created_at
      · simp [hc]
      · simp [hc]
    · exact List.mem_cons.mpr (Or.inr (List.mem_cons.mpr (Or.inr h1)))

theorem latestOf_max {α : Type} :
    ∀ (bs : List (REvent α)) (e : REvent α),
      ∀ x ∈ e :: bs, x.created_at ≤ (latestOf e bs).created_at := by
  intro bs
  induction bs with
  | nil =>
    intro e x hx
    rcases List.mem_cons.mp hx with rfl | hx1
    · simp [latestOf]
    · simp at hx1
  | cons b bs ih =>
    intro e x hx
    rw [latestOf_cons]
    have hfe : e.created_at ≤ (if e.created_at > b.created_at then e else b).created_at := by
      by_cases hc : e.created_at > b.created_at
      · simp [hc]
      · simp [hc]; omega
    have hfb : b.created_at ≤ (if e.created_at > b.created_at then e else b).created_at := by
      by_cases hc : e.created_at > b.created_at
      · simp [hc]; omega
      · simp [hc]
    rcases List.mem_cons.mp hx with rfl | hx1
    · exact le_trans hfe (ih _ _ (List.mem_cons_self _ _))
    rcases List.mem_cons.mp hx1 with rfl | hx2
    · exact le_trans hfb (ih _ _ (List.mem_cons_self _ _))
    · exact ih _ x (List.mem_cons.mpr (Or.inr hx2))

/-! ## Claims -/

/-- Claim C3: for every page number N > 1 and every total_archives value
T, getDTagForPage computes the archive tag whose numeric suffix is
T + 2 - N; for page 1 it returns the constant current-index tag for
every T. -/
theorem getDTagForPage_spec (page totalArchives : Int) :
    (page = 1 → getDTagForPage page totalArchives = D_TAGS.CURRENT_INDEX) ∧
    (1 < page →
      getDTagForPage page totalArchives = D_TAGS.archiveTag (totalArchives + 2 - page) ∧
      getDTagForPage page totalArchives = archiveTagBase ++ toString (totalArchives + 2 - page)) := by
  constructor
  · intro h
    simp [getDTagForPage, h]
  · intro h
    have hne : ¬(page = 1) := by omega
    exact ⟨by simp [getDTagForPage, hne], by simp [getDTagForPage, hne, D_TAGS.archiveTag]⟩

theorem getDTagForPage_spec_witness :
    getDTagForPage 1 5 = D_TAGS.CURRENT_INDEX ∧
    getDTagForPage 4 7 = archiveTagBase ++ toString (7 + 2 - 4 : Int) :=
  ⟨(getDTagForPage_spec 1 5).1 rfl, ((getDTagForPage_spec 4 7).2 (by decide)).2⟩

/-- Claim C4: every winning index record (at page 1 or at any archive
page) and every winning manifest record whose payload parses but
declares a version other than 2 makes fetchFileIndex/fetchManifest
raise an UnsupportedVersion error; the parsed record is never returned,
the error is never absorbed into a nothing-found result, and an
UnsupportedVersion raised while resolving page 1 inside an archive-page
fetch propagates out unchanged. -/
theorem fetch_unsupported_version :
    (∀ (query : NostrFilter → List (REvent FileIndex)) (pubkey : String)
        (e : REvent FileIndex) (rest : List (REvent FileIndex)) (idx : FileIndex),
        query (indexFilter pubkey D_TAGS.CURRENT_INDEX) = e :: rest →
        (latestOf e rest).parsed = some idx →
        idx.version ≠ 2 →
        fetchFileIndex query pubkey 1 = .error (.unsupportedVersion idx.version)) ∧
    (∀ (query : NostrFilter → List (REvent FileIndex)) (pubkey : String) (page : Int)
        (cur : FileIndex) (e : REvent FileIndex) (rest : List (REvent FileIndex))
        (idx : FileIndex),
        page ≠ 1 →
        fetchFileIndexPage1 query pubkey = .ok (some cur) →
        query (indexFilter pubkey (getDTagForPage page cur.total_archives)) = e :: rest →
        (latestOf e rest).parsed = some idx →
        idx.version ≠ 2 →
        fetchFileIndex query pubkey page = .error (.unsupportedVersion idx.version)) ∧
    (∀ (query : NostrFilter → List (REvent FileIndex)) (pubkey : String) (page : Int)
        (err : NostrError),
        page ≠ 1 →
        fetchFileIndexPage1 query pubkey = .error err →
        fetchFileIndex query pubkey page = .error err) ∧
    (∀ (query : NostrFilter → List (REvent Manifest)) (pubkey fileHash : String)
        (e : REvent Manifest) (rest : List (REvent Manifest)) (m : Manifest),
        (runManifestQueries query (manifestFilters pubkey fileHash)).2 = e :: rest →
        (latestOf e rest).parsed = some m →
        m.version ≠ 2 →
        fetchManifest query pubkey fileHash = .error (.unsupportedVersion m.version)) := by
  refine ⟨?_, ?_, ?_, ?_⟩
  · intro query pubkey e rest idx hq hp hv
    have h1 : fetchFileIndex query pubkey 1 = fetchFileIndexPage1 query pubkey := by
      simp [fetchFileIndex]
    rw [h1]
    simp [fetchFileIndexPage1, hq, hp, hv]
  · intro query pubkey page cur e rest idx hpage h1 hq hp hv
    simp [fetchFileIndex, hpage, h1, hq, hp, hv]
  · intro query pubkey page err hpage h1
    simp [fetchFileIndex, hpage, h1]
  · intro query pubkey fileHash e rest m hq hp hv
    simp [fetchManifest, hq, hp, hv]

theorem fetch_unsupported_version_witness :
    fetchFileIndex (fun _ => [{ created_at := 10, parsed := some { version := 3, total_archives := 0 } }])
        "pk" 1 = .error (.unsupportedVersion 3) ∧
    fetchFileIndex (fun f => if f.dTags = [D_TAGS.CURRENT_INDEX]
        then [{ created_at := 5, parsed := some { version := 2, total_archives := 3 } }]
        else [{ created_at := 7, parsed := some { version := 3, total_archives := 0 } }])
        "pk" 2 = .error (.unsupportedVersion 3) ∧
    fetchFileIndex (fun _ => [{ created_at := 10, parsed := some { version := 3, total_archives := 0 } }])
        "pk" 2 = .error (.unsupportedVersion 3) ∧
    fetchManifest (fun _ => [{ created_at := 10, parsed := some { version := 3, total_chunks := 5 } }])
        "pk" "fh" = .error (.unsupportedVersion 3) :=
  ⟨fetch_unsupported_version.1 _ "pk"
      { created_at := 10, parsed := some { version := 3, total_archives := 0 } } []
      { version := 3, total_archives := 0 } rfl rfl (by decide),
   fetch_unsupported_version.2.1 _ "pk" 2 { version := 2, total_archives := 3 }
      { created_at := 7, parsed := some { version := 3, total_archives := 0 } } []
      { version := 3, total_archives := 0 } (by decide) rfl rfl rfl (by decide),
   fetch_unsupported_version.2.2.1 _ "pk" 2 (.unsupportedVersion 3) (by decide) rfl,
   fetch_unsupported_version.2.2.2 _ "pk" "fh"
      { created_at := 10, parsed := some { version := 3, total_chunks := 5 } } []
      { version := 3, total_chunks := 5 } (by decide) rfl (by decide)⟩

/-- Claim C5: every winning index record (at page 1 or at any archive
page) and every winning manifest record whose payload fails to parse as
JSON makes the resolver return nothing-found (null) rather than
propagate an exception; a page-1 parse failure inside an archive-page
fetch likewise surfaces as nothing-found, not a throw. -/
theorem fetch_parse_failure_null :
    (∀ (query : NostrFilter → List (REvent FileIndex)) (pubkey : String)
        (e : REvent FileIndex) (rest : List (REvent FileIndex)),
        query (indexFilter pubkey D_TAGS.CURRENT_INDEX) = e :: rest →
        (latestOf e rest).parsed = none →
        fetchFileIndex query pubkey 1 = .ok none) ∧
    (∀ (query : NostrFilter → List (REvent FileIndex)) (pubkey : String) (page : Int)
        (cur : FileIndex) (e : REvent FileIndex) (rest : List (REvent FileIndex)),
        page ≠ 1 →
        fetchFileIndexPage1 query pubkey = .ok (some cur) →
        query (indexFilter pubkey (getDTagForPage page cur.total_archives)) = e :: rest →
        (latestOf e rest).parsed = none →
        fetchFileIndex query pubkey page = .ok none) ∧
    (∀ (query : NostrFilter → List (REvent FileIndex)) (pubkey : String) (page : Int),
        page ≠ 1 →
        fetchFileIndexPage1 query pubkey = .ok none →
        fetchFileIndex query pubkey page = .ok none) ∧
    (∀ (query : NostrFilter → List (REvent Manifest)) (pubkey fileHash : String)
        (e : REvent Manifest) (rest : List (REvent Manifest)),
        (runManifestQueries query (manifestFilters pubkey fileHash)).2 = e :: rest →
        (latestOf e rest).parsed = none →
        fetchManifest query pubkey fileHash = .ok none) := by
  refine ⟨?_, ?_, ?_, ?_⟩
  · intro query pubkey e rest hq hp
    have h1 : fetchFileIndex query pubkey 1 = fetchFileIndexPage1 query pubkey := by
      simp [fetchFileIndex]
    rw [h1]
    simp [fetchFileIndexPage1, hq, hp]
  · intro query pubkey page cur e rest hpage h1 hq hp
    simp [fetchFileIndex, hpage, h1, hq, hp]
  · intro query pubkey page hpage h1
    simp [fetchFileIndex, hpage, h1]
  · intro query pubkey fileHash e rest hq hp
    simp [fetchManifest, hq, hp]

theorem fetch_parse_failure_null_witness :
    fetchFileIndex (fun _ => [{ created_at := 3, parsed := (none : Option FileIndex) }])
        "pk" 1 = .ok none ∧
    fetchFileIndex (fun f => if f.dTags = [D_TAGS.CURRENT_INDEX]
        then [{ created_at := 5, parsed := some { version := 2, total_archives := 3 } }]
        else [{ created_at := 7, parsed := (none : Option FileIndex) }])
        "pk" 2 = .ok none ∧
    fetchFileIndex (fun _ => [{ created_at := 3, parsed := (none : Option FileIndex) }])
        "pk" 2 = .ok none ∧
    fetchManifest (fun _ => [{ created_at := 3, parsed := (none : Option Manifest) }])
        "pk" "fh" = .ok none :=
  ⟨fetch_parse_failure_null.1 _ "pk" { created_at := 3, parsed := none } [] rfl rfl,
   fetch_parse_failure_null.2.1 _ "pk" 2 { version := 2, total_archives := 3 }
      { created_at := 7, parsed := none } [] (by decide) rfl rfl rfl,
   fetch_parse_failure_null.2.2.1 _ "pk" 2 (by decide) rfl,
   fetch_parse_failure_null.2.2.2 _ "pk" "fh" { created_at := 3, parsed := none } []
      (by decide) rfl⟩

theorem runManifestQueries_pair (query : NostrFilter → List (REvent Manifest))
    (f1 f2 : NostrFilter) :
    runManifestQueries query [f1, f2] =
      if query f1 = [] then ([f1, f2], query f2) else ([f1], query f1) := by
  rcases hq1 : query f1 with _ | ⟨e, es⟩ <;> rcases hq2 : query f2 with _ | ⟨d, ds⟩ <;>
    simp [runManifestQueries, hq1, hq2]

/-- Claim C6: fetchManifest queries the content-hash (#x) convention
first and the file-identifier (#d) convention second; the fallback query
is issued iff the #x query returned no events; the accepted candidate
list is the first convention's non-empty result; and among the accepted
candidates a record with the greatest creation timestamp wins and
determines the outcome. -/
theorem fetchManifest_fallback_order
    (query : NostrFilter → List (REvent Manifest)) (pubkey fileHash : String) :
    ((query (manifestXFilter pubkey fileHash) ≠ [] →
        runManifestQueries query (manifestFilters pubkey fileHash) =
          ([manifestXFilter pubkey fileHash], query (manifestXFilter pubkey fileHash))) ∧
     (query (manifestXFilter pubkey fileHash) = [] →
        runManifestQueries query (manifestFilters pubkey fileHash) =
          ([manifestXFilter pubkey fileHash, manifestDFilter pubkey fileHash],
           query (manifestDFilter pubkey fileHash)))) ∧
    (∀ (e : REvent Manifest) (rest : List (REvent Manifest)),
        (runManifestQueries query (manifestFilters pubkey fileHash)).2 = e :: rest →
        latestOf e rest ∈ e :: rest ∧
        (∀ x ∈ e :: rest, x.created_at ≤ (latestOf e rest).created_at) ∧
        fetchManifest query pubkey fileHash =
          (match (latestOf e rest).parsed with
            | none => Except.ok none
            | some manifest =>
              if manifest.version ≠ 2 then Except.error (.unsupportedVersion manifest.version)
              else Except.ok (some manifest))) := by
  refine ⟨⟨fun hx => ?_, fun hx => ?_⟩, fun e rest hq => ?_⟩
  · rw [manifestFilters, runManifestQueries_pair, if_neg hx]
  · rw [manifestFilters, runManifestQueries_pair, if_pos hx]
  · refine ⟨latestOf_mem rest e, latestOf_max rest e, ?_⟩
    simp only [fetchManifest, hq]

theorem fetchManifest_fallback_order_witness :
    ((fun f => if f.xTags = ["fh"] then ([] : List (REvent Manifest)) else
        [{ created_at := 4, parsed := some { version := 2, total_chunks := 1 } }])
          (manifestXFilter "pk" "fh") = [] ∧
      runManifestQueries
        (fun f => if f.xTags = ["fh"] then ([] : List (REvent Manifest)) else
          [{ created_at := 4, parsed := some { version := 2, total_chunks := 1 } }])
        (manifestFilters "pk" "fh") =
          ([manifestXFilter "pk" "fh", manifestDFilter "pk" "fh"],
           (fun f => if f.xTags = ["fh"] then ([] : List (REvent Manifest)) else
             [{ created_at := 4, parsed := some { version := 2, total_chunks := 1 } }])
             (manifestDFilter "pk" "fh"))) ∧
    fetchManifest
      (fun f => if f.xTags = ["fh"] then ([] : List (REvent Manifest)) else
        [{ created_at := 4, parsed := some { version := 2, total_chunks := 1 } }])
      "pk" "fh" = .ok (some { version := 2, total_chunks := 1 }) := by
  have h1 := (fetchManifest_fallback_order
    (fun f => if f.xTags = ["fh"] then ([] : List (REvent Manifest)) else
      [{ created_at := 4, parsed := some { version := 2, total_chunks := 1 } }])
    "pk" "fh").1.2 (by decide)
  have h2 := (fetchManifest_fallback_order
    (fun f => if f.xTags = ["fh"] then ([] : List (REvent Manifest)) else
      [{ created_at := 4, parsed := some { version := 2, total_chunks := 1 } }])
    "pk" "fh").2 { created_at := 4, parsed := some { version := 2, total_chunks := 1 } } []
    (by decide)
  exact ⟨⟨by decide, h1⟩, by rw [h2.2.2]; rfl⟩

/-- Claim C7: when the cache entry for (owner, file_hash) already holds
exactly total_chunks distinct indices, fetchChunks returns the cached
chunks sorted ascending by index immediately, issues no relay query or
subscription (its outcome is independent of the network), and leaves the
cache entry unchanged. -/
theorem fetchChunks_cache_hit (net net2 : NostrFilter → List ChunkRecord)
    (pubkey fileHash : String) (totalChunks : Nat) (chunkInfos : List ChunkInfo)
    (m : List (Int × ChunkEvent))
    (hkeys : (m.map (fun p => p.1)).Nodup)
    (hsize : m.length = totalChunks) :
    fetchChunksOnce net pubkey fileHash totalChunks chunkInfos (some m) =
      { result := sortChunks (m.map (fun p => p.2))
        cacheAfter := some m
        issuedFilters := [] } ∧
    fetchChunksOnce net pubkey fileHash totalChunks chunkInfos (some m) =
      fetchChunksOnce net2 pubkey fileHash totalChunks chunkInfos (some m) := by
  constructor
  · simp [fetchChunksOnce, hsize]
  · simp [fetchChunksOnce, hsize]

theorem fetchChunks_cache_hit_witness :
    fetchChunksOnce (fun _ => []) "pk" "fh" 1 []
        (some [(0, { index := 0, content := "c", encryption := "none" })]) =
      { result := [{ index := 0, content := "c", encryption := "none" }]
        cacheAfter := some [(0, { index := 0, content := "c", encryption := "none" })]
        issuedFilters := [] } ∧
    fetchChunksOnce (fun _ => []) "pk" "fh" 1 []
        (some [(0, { index := 0, content := "c", encryption := "none" })]) =
      fetchChunksOnce (fun _ => [{ id := "x", tags := [], content := "y" }]) "pk" "fh" 1 []
        (some [(0, { index := 0, content := "c", encryption := "none" })]) := by
  have h := fetchChunks_cache_hit (fun _ => [])
    (fun _ => [{ id := "x", tags := [], content := "y" }]) "pk" "fh" 1 []
    [(0, { index := 0, content := "c", encryption := "none" })] (by decide) (by decide)
  exact ⟨h.1, h.2⟩

/-- Claim C1, counterexample: a chunk record whose tags yield no index
(no 'chunk' tag, no 'd' tag) is nevertheless inserted into the
index-to-ChunkEvent map when the manifest's chunk_infos (indexByEventId)
map its identifier to an index — the record is not discarded. -/
theorem handleEvent_manifest_fallback_cex :
    parseChunkIndexFromTags [["e", "y"]] = none ∧
    (handleEvent [("ev1", 5)]
        { chunksByIndex := [], seenEventIds := [], cacheEntry := [], progressLog := [] }
        { id := "ev1", tags := [["e", "y"]], content := "payload" }).chunksByIndex =
      [(5, { index := 5, content := "payload", encryption := "none" })] := by
  constructor
  · decide
  · decide

/-- Claim C1, amended: for an incoming chunk record that was not seen
before, the logical index is determined by parseChunkIndexFromTags
(explicit 'chunk' tag first, then the trailing colon-delimited segment
of the 'd' tag); when that yields nothing the index is taken from the
manifest-derived indexByEventId map; only when that lookup also fails is
the record discarded and never inserted into the index-to-ChunkEvent
map; when an index is found and is not yet present, the record is
inserted at that index. -/
theorem handleEvent_index_resolution
    (indexByEventId : List (String × Int)) (st : FetchState) (ev : ChunkRecord)
    (hseen : st.seenEventIds.contains ev.id = false) :
    (parseChunkIndexFromTags ev.tags = none → mapGet indexByEventId ev.id = none →
      (handleEvent indexByEventId st ev).chunksByIndex = st.chunksByIndex ∧
      (handleEvent indexByEventId st ev).cacheEntry = st.cacheEntry) ∧
    (∀ i : Int, parseChunkIndexFromTags ev.tags = none →
      mapGet indexByEventId ev.id = some i →
      st.chunksByIndex.any (fun p => decide (p.1 = i)) = false →
      ∃ c : ChunkEvent, c.index = i ∧ c.content = ev.content ∧
        (handleEvent indexByEventId st ev).chunksByIndex = st.chunksByIndex ++ [(i, c)]) ∧
    (∀ i : Int, parseChunkIndexFromTags ev.tags = some i →
      st.chunksByIndex.any (fun p => decide (p.1 = i)) = false →
      ∃ c : ChunkEvent, c.index = i ∧ c.content = ev.content ∧
        (handleEvent indexByEventId st ev).chunksByIndex = st.chunksByIndex ++ [(i, c)]) := by
  have hseen2 : ev.id ∉ st.seenEventIds := by simpa using hseen
  refine ⟨fun hp hm => ?_, fun i hp hm hfree => ?_, fun i hp hfree => ?_⟩
  · constructor <;> simp [handleEvent, hseen2, hp, hm]
  · refine ⟨{ index := i, content := ev.content,
              encryption := match (findTag ev.tags "encryption").bind (fun t => t.get? 1) with
                | some s => if s = "" then "none" else s
                | none => "none" }, rfl, rfl, ?_⟩
    simp [handleEvent, hseen2, hp, hm, hfree]
  · refine ⟨{ index := i, content := ev.content,
              encryption := match (findTag ev.tags "encryption").bind (fun t => t.get? 1) with
                | some s => if s = "" then "none" else s
                | none => "none" }, rfl, rfl, ?_⟩
    simp [handleEvent, hseen2, hp, hfree]

theorem handleEvent_index_resolution_witness :
    ((["e1"] : List String).contains "e2" = false) ∧
    parseChunkIndexFromTags [["chunk", ""], ["x", "h"]] = none ∧
    mapGet [("e2", (3 : Int))] "e2" = some 3 ∧
    (∃ c : ChunkEvent, c.index = 3 ∧ c.content = "pp" ∧
      (handleEvent [("e2", 3)]
          { chunksByIndex := [], seenEventIds := ["e1"], cacheEntry := [], progressLog := [] }
          { id := "e2", tags := [["chunk", ""], ["x", "h"]], content := "pp" }).chunksByIndex =
        [] ++ [(3, c)]) := by
  refine ⟨by decide, by decide, by decide, ?_⟩
  exact (handleEvent_index_resolution [("e2", 3)]
    { chunksByIndex := [], seenEventIds := ["e1"], cacheEntry := [], progressLog := [] }
    { id := "e2", tags := [["chunk", ""], ["x", "h"]], content := "pp" }
    (by decide)).2.1 3 (by decide) (by decide) (by decide)

/-- A character of the claim's input class: an uppercase-form hex
character (a decimal digit or A-F). -/
def isUpperHexChar (c : Char) : Bool :=
  (48 ≤ c.toNat && c.toNat ≤ 57) || (65 ≤ c.toNat && c.toNat ≤ 70)

theorem dropWhile_eq_self_of_none {p : Char → Bool} :
    ∀ l : List Char, (∀ c ∈ l, p c = false) → l.dropWhile p = l := by
  intro l h
  cases l with
  | nil => rfl
  | cons x xs => simp [List.dropWhile_cons, h x (List.mem_cons_self x xs)]

theorem trimJs_eq_self (s : String) (h : ∀ c ∈ s.toList, isJsTrimWs c = false) :
    trimJs s = s := by
  unfold trimJs
  rw [dropWhile_eq_self_of_none s.toList h,
      dropWhile_eq_self_of_none s.toList.reverse (fun c hc => h c (List.mem_reverse.mp hc)),
      List.reverse_reverse]
  rfl

theorem startsWithJs_false_of_head_ne (s p : String) (c0 d0 : Char)
    (cs ds : List Char) (hs : s.toList = c0 :: cs) (hp : p.toList = d0 :: ds)
    (hne : c0 ≠ d0) : startsWithJs s p = false := by
  unfold startsWithJs
  rw [hs, hp]
  simp [List.take_succ_cons, hne]

set_option maxRecDepth 4000 in
theorem fromCharCode_toNat_small : ∀ n, n < 256 → (fromCharCode n).toNat = n := by decide

/-- Claim C9: normalizeToPublicKey on a 64-character uppercase hex
string (which is neither npub nor nsec) succeeds with the lowercased
string as public key and no secret key; and isValidHexPubkey is true
exactly for strings of 64 hex characters of either case. -/
theorem normalize_uppercase_hex (lib : Nip19) (tools : NostrPure) (s : String)
    (hlen : s.length = 64) (hhex : ∀ c ∈ s.toList, isUpperHexChar c = true) :
    normalizeToPublicKey lib tools s =
      some { pubkey := toLowerCaseJs s, secretKey := none } ∧
    (∀ c ∈ (toLowerCaseJs s).toList,
      isHexDigitChar c = true ∧ (65 ≤ c.toNat && c.toNat ≤ 90) = false) ∧
    (∀ t : String, isValidHexPubkey t = true ↔
      (t.length = 64 ∧ ∀ c ∈ t.toList, isHexDigitChar c = true)) := by
  have htrim : trimJs s = s := by
    refine trimJs_eq_self s (fun c hc => ?_)
    have h1 := hhex c hc
    simp [isUpperHexChar] at h1
    simp [isJsTrimWs]
    omega
  have hne : s.toList ≠ [] := by
    intro h0
    have h2 : s.toList.length = 64 := by
      rw [show s.toList.length = s.length from rfl, hlen]
    rw [h0] at h2
    simp at h2
  obtain ⟨c0, cs, htl⟩ := List.exists_cons_of_ne_nil hne
  have hc0 := hhex c0 (by rw [htl]; exact List.mem_cons_self _ _)
  have hc0n : c0 ≠ 'n' := by
    intro h0
    rw [h0] at hc0
    exact absurd hc0 (by decide)
  have hnpub : isValidNpub lib s = false := by
    have := startsWithJs_false_of_head_ne s "npub1" c0 'n' cs "pub1".toList htl rfl hc0n
    simp [isValidNpub, this]
  have hnsec : isValidNsec lib s = false := by
    have := startsWithJs_false_of_head_ne s "nsec1" c0 'n' cs "sec1".toList htl rfl hc0n
    simp [isValidNsec, this]
  have hhexv : isValidHexPubkey s = true := by
    simp [isValidHexPubkey, hlen, List.all_eq_true]
    intro c hc
    have h1 := hhex c hc
    simp [isUpperHexChar] at h1
    simp [isHexDigitChar]
    omega
  refine ⟨?_, ?_, ?_⟩
  · simp [normalizeToPublicKey, htrim, hnpub, hnsec, hhexv]
  · intro c hc
    simp [toLowerCaseJs] at hc
    obtain ⟨c1, hc1, hlc⟩ := hc
    have h1 := hhex c1 hc1
    simp [isUpperHexChar] at h1
    subst hlc
    rcases h1 with hdig | hAF
    · have h65 : ¬ 65 ≤ c1.toNat := by omega
      have hlow : lowerChar c1 = c1 := by
        unfold lowerChar
        simp [h65]
      rw [hlow]
      refine ⟨by simp [isHexDigitChar]; omega, by simp [h65]⟩
    · have hlow : lowerChar c1 = fromCharCode (c1.toNat + 32) := by
        unfold lowerChar
        have hb : (65 ≤ c1.toNat && c1.toNat ≤ 90) = true := by
          simp
          omega
        simp [hb]
      rw [hlow]
      have h32 : (fromCharCode (c1.toNat + 32)).toNat = c1.toNat + 32 :=
        fromCharCode_toNat_small _ (by omega)
      refine ⟨by simp [isHexDigitChar, h32]; omega, by simp [h32]; omega⟩
  · intro t
    simp [isValidHexPubkey, List.all_eq_true]

theorem normalize_uppercase_hex_witness :
    ("ABCDEF0123456789ABCDEF0123456789ABCDEF0123456789ABCDEF0123456789" : String).length = 64 ∧
    normalizeToPublicKey { decode := fun _ => none } { getPublicKey := fun _ => "" }
        "ABCDEF0123456789ABCDEF0123456789ABCDEF0123456789ABCDEF0123456789" =
      some { pubkey :=
               toLowerCaseJs "ABCDEF0123456789ABCDEF0123456789ABCDEF0123456789ABCDEF0123456789"
             secretKey := none } :=
  ⟨by decide,
   (normalize_uppercase_hex { decode := fun _ => none } { getPublicKey := fun _ => "" }
      "ABCDEF0123456789ABCDEF0123456789ABCDEF0123456789ABCDEF0123456789"
      (by decide) (by decide)).1⟩

/-! ## base64 lemmas -/

theorem list3_induction {α : Type} (P : List α → Prop) (h0 : P []) (h1 : ∀ a, P [a])
    (h2 : ∀ a b, P [a, b]) (h3 : ∀ a b c rest, P rest → P (a :: b :: c :: rest)) :
    ∀ l, P l := by
  have key : ∀ n (l : List α), l.length ≤ n → P l := by
    intro n
    induction n with
    | zero =>
      intro l hl
      rcases l with _ | ⟨a, as⟩
      · exact h0
      · simp at hl
    | succ n ih =>
      intro l hl
      rcases l with _ | ⟨a, _ | ⟨b, _ | ⟨c, rest⟩⟩⟩
      · exact h0
      · exact h1 a
      · exact h2 a b
      · refine h3 a b c rest (ih rest ?_)
        simp at hl
        omega
  exact fun l => key l.length l le_rfl

set_option maxRecDepth 8000 in
theorem charToSextet_sextetToChar : ∀ n, n < 64 → charToSextet (sextetToChar n) = some n := by
  decide

theorem b64CharList_props : ∀ c ∈ b64CharList,
    isAsciiWs c = false ∧ c ≠ '=' ∧ c.toNat < 128 := by
  have hall : b64CharList.all
      (fun c => !isAsciiWs c && (decide (c = '=') = false) && decide (c.toNat < 128)) = true := by
    decide
  intro c hc
  have h1 := List.all_eq_true.mp hall c hc
  simp at h1
  exact ⟨h1.1.1, h1.1.2, h1.2⟩

theorem sextetToChar_mem (n : Nat) : sextetToChar n ∈ b64CharList := by
  by_cases h : n < 64
  · unfold sextetToChar
    rw [List.getD_eq_getElem _ _ (by simpa [b64CharList, b64Chars] using h)]
    exact List.getElem_mem _
  · have hge : b64CharList.length ≤ n := by
      have : b64CharList.length = 64 := by decide
      omega
    unfold sextetToChar
    rw [List.getD_eq_default _ _ hge]
    decide

theorem btoaList_eq (bs : List Nat) :
    btoaList bs = (sextets bs).map sextetToChar ++ padEqs bs := by
  induction bs using list3_induction with
  | h0 => rfl
  | h1 a => rfl
  | h2 a b => rfl
  | h3 a b c rest ih => simp [btoaList, sextets, padEqs, ih]

theorem padEqs_cases (bs : List Nat) :
    padEqs bs = [] ∨ padEqs bs = ['='] ∨ padEqs bs = ['=', '='] := by
  induction bs using list3_induction with
  | h0 => left; rfl
  | h1 a => right; right; rfl
  | h2 a b => right; left; rfl
  | h3 a b c rest ih => simpa [padEqs] using ih

theorem sextets_length_mod (bs : List Nat) : (sextets bs).length % 4 ≠ 1 := by
  induction bs using list3_induction with
  | h0 => simp [sextets]
  | h1 a => simp [sextets]
  | h2 a b => simp [sextets]
  | h3 a b c rest ih =>
    simp only [sextets, List.length_append, List.length_cons, List.length_nil]
    omega

theorem btoa_mem_chars (bs : List Nat) :
    ∀ c ∈ btoaList bs, c ∈ b64CharList ∨ c = '=' := by
  intro c hc
  rw [btoaList_eq] at hc
  rcases List.mem_append.mp hc with h | h
  · obtain ⟨n, _, rfl⟩ := List.mem_map.mp h
    exact Or.inl (sextetToChar_mem n)
  · rcases padEqs_cases bs with hp | hp | hp <;> rw [hp] at h <;> simp at h <;> simp [h]

theorem btoa_filter (bs : List Nat) :
    (btoaList bs).filter (fun c => !isAsciiWs c) = btoaList bs := by
  rw [List.filter_eq_self]
  intro c hc
  rcases btoa_mem_chars bs c hc with h | h
  · simp [(b64CharList_props c h).1]
  · subst h; decide

theorem btoa_length_mod (bs : List Nat) : (btoaList bs).length % 4 = 0 := by
  induction bs using list3_induction with
  | h0 => rfl
  | h1 a => simp [btoaList]
  | h2 a b => simp [btoaList]
  | h3 a b c rest ih =>
    simp only [btoaList, List.length_append, List.length_cons, List.length_nil]
    omega

theorem sextets_map_ne_eq (bs : List Nat) :
    ∀ c ∈ (sextets bs).map sextetToChar, c ≠ '=' := by
  intro c hc
  obtain ⟨n, _, rfl⟩ := List.mem_map.mp hc
  exact (b64CharList_props _ (sextetToChar_mem n)).2.1

theorem rte_of_ne (l : List Char) (h : ∀ c ∈ l, c ≠ '=') : removeTrailingEq l = l := by
  have h1 : ¬ l.getLast? = some '=' := by
    intro hg
    obtain ⟨hne, heq⟩ := List.mem_getLast?_eq_getLast (show '=' ∈ l.getLast? by rw [hg]; rfl)
    exact h _ (heq ▸ List.getLast_mem hne) rfl
  unfold removeTrailingEq
  simp [h1]

theorem rte_concat_one (l : List Char) (h : ∀ c ∈ l, c ≠ '=') :
    removeTrailingEq (l ++ ['=']) = l := by
  have h1 : ¬ l.getLast? = some '=' := by
    intro hg
    obtain ⟨hne, heq⟩ := List.mem_getLast?_eq_getLast (show '=' ∈ l.getLast? by rw [hg]; rfl)
    exact h _ (heq ▸ List.getLast_mem hne) rfl
  unfold removeTrailingEq
  rw [List.getLast?_concat]
  simp only [if_pos rfl, List.dropLast_concat]
  simp [h1]

theorem rte_concat_two (l : List Char) (h : ∀ c ∈ l, c ≠ '=') :
    removeTrailingEq (l ++ ['=', '=']) = l := by
  rw [show l ++ ['=', '='] = (l ++ ['=']) ++ ['='] from by simp]
  simp [removeTrailingEq, List.getLast?_concat, List.dropLast_concat]

theorem atobCore_sextets :
    ∀ bs : List Nat, (∀ b ∈ bs, b < 256) →
      atobCore ((sextets bs).map sextetToChar) = some bs := by
  refine list3_induction _ ?_ ?_ ?_ ?_
  · intro _
    rfl
  · intro a h
    have ha := h a (by simp)
    have r1 := charToSextet_sextetToChar (a / 4) (by omega)
    have r2 := charToSextet_sextetToChar (a % 4 * 16) (by omega)
    simp [sextets, atobCore, r1, r2]
    omega
  · intro a b h
    have ha := h a (by simp)
    have hb := h b (by simp)
    have r1 := charToSextet_sextetToChar (a / 4) (by omega)
    have r2 := charToSextet_sextetToChar (a % 4 * 16 + b / 16) (by omega)
    have r3 := charToSextet_sextetToChar (b % 16 * 4) (by omega)
    simp [sextets, atobCore, r1, r2, r3]
    constructor <;> omega
  · intro a b c rest ih h
    have ha := h a (by simp)
    have hb := h b (by simp)
    have hc := h c (by simp)
    have hrest := ih (fun x hx => h x (by simp [hx]))
    have r1 := charToSextet_sextetToChar (a / 4) (by omega)
    have r2 := charToSextet_sextetToChar (a % 4 * 16 + b / 16) (by omega)
    have r3 := charToSextet_sextetToChar (b % 16 * 4 + c / 64) (by omega)
    have r4 := charToSextet_sextetToChar (c % 64) (by omega)
    simp [sextets, atobCore, r1, r2, r3, r4, hrest]
    refine ⟨by omega, by omega, by omega⟩

/-- Claim C10: decoding the base64 encoding of any byte array yields the
byte array back — base64ToUint8Array (uint8ArrayToBase64 b) = b. -/
theorem base64_roundtrip (bytes : List Nat) (h : ∀ b ∈ bytes, b < 256) :
    base64ToUint8Array (uint8ArrayToBase64 bytes) = some bytes := by
  have hid : (bytes.map fromCharCode).map Char.toNat = bytes := by
    rw [List.map_map]
    have hcg : ∀ b ∈ bytes, (Char.toNat ∘ fromCharCode) b = id b := fun b hb =>
      fromCharCode_toNat_small b (h b hb)
    rw [List.map_congr_left hcg, List.map_id]
  have hne : ∀ c ∈ (sextets bytes).map sextetToChar, c ≠ '=' := sextets_map_ne_eq bytes
  have hstrip : removeTrailingEq (btoaList bytes) = (sextets bytes).map sextetToChar := by
    rw [btoaList_eq]
    rcases padEqs_cases bytes with hp | hp | hp <;> rw [hp]
    · rw [List.append_nil]
      exact rte_of_ne _ hne
    · exact rte_concat_one _ hne
    · exact rte_concat_two _ hne
  have hlen1 : ¬ ((sextets bytes).map sextetToChar).length % 4 = 1 := by
    rw [List.length_map]
    exact sextets_length_mod bytes
  have hany : ((sextets bytes).map sextetToChar).any (fun c => decide (c = '=')) = false := by
    rw [List.any_eq_false]
    intro c hc
    simpa using hne c hc
  unfold uint8ArrayToBase64 base64ToUint8Array
  rw [hid]
  simp only [atobList, btoa_filter bytes, btoa_length_mod bytes, if_pos rfl, hstrip]
  simp only [if_true]
  rw [if_neg hlen1]
  rw [hany]
  simp only [Bool.false_eq_true, if_false]
  exact atobCore_sextets bytes h

theorem base64_roundtrip_witness :
    (∀ b ∈ [0, 1, 77, 128, 255], b < 256) ∧
    base64ToUint8Array (uint8ArrayToBase64 [0, 1, 77, 128, 255]) = some [0, 1, 77, 128, 255] :=
  ⟨by decide, base64_roundtrip [0, 1, 77, 128, 255] (by decide)⟩

/-! ## C8 lemmas: ASCII analysis of atob inputs -/

theorem charToSextetAux_mem (c : Char) :
    ∀ (l : List Char) (i s : Nat), charToSextetAux c l i = some s → c ∈ l := by
  intro l
  induction l with
  | nil => intro i s h; simp [charToSextetAux] at h
  | cons x xs ih =>
    intro i s h
    by_cases hx : x = c
    · exact hx ▸ List.mem_cons_self _ _
    · rw [charToSextetAux, if_neg hx] at h
      exact List.mem_cons.mpr (Or.inr (ih (i + 1) s h))

theorem charToSextet_mem (c : Char) (s : Nat) (h : charToSextet c = some s) :
    c ∈ b64CharList :=
  charToSextetAux_mem c b64CharList 0 s h

theorem atobCore_chars :
    ∀ (t : List Char) (bs : List Nat), atobCore t = some bs →
      ∀ c ∈ t, ∃ s, charToSextet c = some s := by
  have key : ∀ (n : Nat) (t : List Char) (bs : List Nat), t.length ≤ n →
      atobCore t = some bs → ∀ c ∈ t, ∃ s, charToSextet c = some s := by
    intro n
    induction n with
    | zero =>
      intro t bs hl h c hc
      rcases t with _ | ⟨a, as⟩
      · simp at hc
      · simp at hl
    | succ n ih =>
      intro t bs hl h c hc
      rcases t with _ | ⟨c1, _ | ⟨c2, _ | ⟨c3, _ | ⟨c4, rest⟩⟩⟩⟩
      · simp at hc
      · simp [atobCore] at h
      · rcases h1 : charToSextet c1 with _ | s1
        · simp [atobCore, h1] at h
        rcases h2 : charToSextet c2 with _ | s2
        · simp [atobCore, h1, h2] at h
        rcases List.mem_cons.mp hc with rfl | hc2
        · exact ⟨s1, h1⟩
        rcases List.mem_cons.mp hc2 with rfl | hc3
        · exact ⟨s2, h2⟩
        · simp at hc3
      · rcases h1 : charToSextet c1 with _ | s1
        · simp [atobCore, h1] at h
        rcases h2 : charToSextet c2 with _ | s2
        · simp [atobCore, h1, h2] at h
        rcases h3 : charToSextet c3 with _ | s3
        · simp [atobCore, h1, h2, h3] at h
        rcases List.mem_cons.mp hc with rfl | hc2
        · exact ⟨s1, h1⟩
        rcases List.mem_cons.mp hc2 with rfl | hc3
        · exact ⟨s2, h2⟩
        rcases List.mem_cons.mp hc3 with rfl | hc4
        · exact ⟨s3, h3⟩
        · simp at hc4
      · rcases h1 : charToSextet c1 with _ | s1
        · simp [atobCore, h1] at h
        rcases h2 : charToSextet c2 with _ | s2
        · simp [atobCore, h1, h2] at h
        rcases h3 : charToSextet c3 with _ | s3
        · simp [atobCore, h1, h2, h3] at h
        rcases h4 : charToSextet c4 with _ | s4
        · simp [atobCore, h1, h2, h3, h4] at h
        rcases h5 : atobCore rest with _ | tail
        · simp [atobCore, h1, h2, h3, h4, h5] at h
        rcases List.mem_cons.mp hc with rfl | hc2
        · exact ⟨s1, h1⟩
        rcases List.mem_cons.mp hc2 with rfl | hc3
        · exact ⟨s2, h2⟩
        rcases List.mem_cons.mp hc3 with rfl | hc4
        · exact ⟨s3, h3⟩
        rcases List.mem_cons.mp hc4 with rfl | hc5
        · exact ⟨s4, h4⟩
        · refine ih rest tail ?_ h5 c hc5
          simp at hl
          omega
  exact fun t bs h c hc => key t.length t bs le_rfl h c hc

theorem mem_dropLast_or (l : List Char) (c : Char) (hc : c ∈ l)
    (hl : l.getLast? = some '=') : c ∈ l.dropLast ∨ c = '=' := by
  obtain ⟨hne, heq⟩ := List.mem_getLast?_eq_getLast (show '=' ∈ l.getLast? by rw [hl]; rfl)
  have hsplit : l.dropLast ++ [l.getLast hne] = l := List.dropLast_append_getLast hne
  rw [← hsplit] at hc
  rcases List.mem_append.mp hc with h | h
  · exact Or.inl h
  · right
    simp at h
    rw [h, ← heq]

theorem mem_rte (t0 : List Char) (c : Char) (hc : c ∈ t0) :
    c ∈ removeTrailingEq t0 ∨ c = '=' := by
  unfold removeTrailingEq
  by_cases h1 : t0.getLast? = some '='
  · rw [if_pos h1]
    rcases mem_dropLast_or t0 c hc h1 with h | h
    · by_cases h2 : t0.dropLast.getLast? = some '='
      · rw [if_pos h2]
        rcases mem_dropLast_or t0.dropLast c h h2 with h3 | h3
        · exact Or.inl h3
        · exact Or.inr h3
      · rw [if_neg h2]
        exact Or.inl h
    · exact Or.inr h
  · rw [if_neg h1, if_neg h1]
    exact Or.inl hc

theorem atob_chars_ascii (cs : List Char) (bs : List Nat) (h : atobList cs = some bs) :
    ∀ c ∈ cs, c.toNat < 128 := by
  intro c hc
  by_cases hws : isAsciiWs c = true
  · simp only [isAsciiWs, Bool.or_eq_true, decide_eq_true_eq] at hws
    rcases hws with ((((h9 | h10) | h12) | h13) | h32) <;> omega
  · by_cases heq : c = '='
    · subst heq
      decide
    · have hcnw : c ∈ cs.filter (fun x => !isAsciiWs x) := by
        rw [List.mem_filter]
        exact ⟨hc, by simp [hws]⟩
      simp only [atobList] at h
      set t := (if (cs.filter (fun c => !isAsciiWs c)).length % 4 = 0
          then removeTrailingEq (cs.filter (fun c => !isAsciiWs c))
          else cs.filter (fun c => !isAsciiWs c)) with hts
      have hmem : c ∈ t := by
        rw [hts]
        split
        · rcases mem_rte _ c hcnw with h1 | h1
          · exact h1
          · exact absurd h1 heq
        · exact hcnw
      have hcore : atobCore t = some bs := by
        by_cases h1 : t.length % 4 = 1
        · rw [if_pos h1] at h
          exact absurd h (by simp)
        · rw [if_neg h1] at h
          by_cases h2 : t.any (fun x => decide (x = '=')) = true
          · rw [if_pos h2] at h
            exact absurd h (by simp)
          · rwa [if_neg h2] at h
      obtain ⟨sx, hsx⟩ := atobCore_chars t bs hcore c hmem
      exact (b64CharList_props c (charToSextet_mem c sx hsx)).2.2

theorem utf8EncodeChar_ascii (c : Char) (h : c.toNat < 128) :
    utf8EncodeChar c = [c.toNat] := by
  unfold utf8EncodeChar
  rw [if_pos (show c.toNat < 0x80 by omega)]

theorem flatMap_utf8_ascii :
    ∀ l : List Char, (∀ c ∈ l, c.toNat < 128) →
      l.flatMap utf8EncodeChar = l.map Char.toNat := by
  intro l
  induction l with
  | nil => intro _; rfl
  | cons x xs ih =>
    intro h
    rw [List.flatMap_cons, List.map_cons,
        utf8EncodeChar_ascii x (h x (List.mem_cons_self _ _)),
        ih (fun c hc => h c (List.mem_cons.mpr (Or.inr hc)))]
    rfl

theorem fromCharCode_toNat_char (c : Char) (h : c.toNat < 128) :
    fromCharCode c.toNat = c := by
  unfold fromCharCode
  rw [Nat.mod_eq_of_lt (by omega)]
  exact Char.ofNat_toNat c

/-- Claim C8: whenever the nip44-decrypted plaintext of a ciphertext is
valid base64 text, decryptChunkBinary succeeds and its bytes equal the
base64 decoding of the bytes produced by decryptChunk (reading those
UTF-8 bytes back as the base64 text they encode): the two decryption
entry points are consistent on binary-sourced ciphertext. -/
theorem decrypt_entry_points_consistent (lib : Nip44) (ciphertext : String)
    (secretKey : List Nat) (pubkey : String) (d : String) (bs : List Nat)
    (hdec : lib.decrypt ciphertext (lib.getConversationKey secretKey pubkey) = some d)
    (hb64 : atobList d.toList = some bs) :
    decryptChunkBinary lib ciphertext secretKey pubkey = some bs ∧
    (decryptChunk lib ciphertext secretKey pubkey).bind
        (fun bytes => atobList (bytes.map fromCharCode)) = some bs := by
  have hascii : ∀ c ∈ d.toList, c.toNat < 128 := atob_chars_ascii d.toList bs hb64
  have htex : textEncoderEncode d = d.toList.map Char.toNat := by
    unfold textEncoderEncode
    exact flatMap_utf8_ascii d.toList hascii
  have hascii2 : ∀ c ∈ d.data, c.toNat < 128 := hascii
  have hback : (d.data.map Char.toNat).map fromCharCode = d.data := by
    rw [List.map_map]
    have hcg : ∀ c ∈ d.data, (fromCharCode ∘ Char.toNat) c = id c := fun c hc =>
      fromCharCode_toNat_char c (hascii2 c hc)
    rw [List.map_congr_left hcg, List.map_id]
  have hb64d : atobList d.data = some bs := hb64
  constructor
  · simp [decryptChunkBinary, hdec, base64ToUint8Array]
    exact hb64d
  · simp [decryptChunk, hdec, htex, base64ToUint8Array]
    rw [← List.map_map, hback]
    exact hb64d

theorem decrypt_entry_points_consistent_witness :
    atobList ("QQ==".toList) = some [65] ∧
    decryptChunkBinary
        { getConversationKey := fun _ _ => [], decrypt := fun _ _ => some "QQ==" }
        "ct" [] "pk" = some [65] ∧
    (decryptChunk
        { getConversationKey := fun _ _ => [], decrypt := fun _ _ => some "QQ==" }
        "ct" [] "pk").bind
      (fun bytes => atobList (bytes.map fromCharCode)) = some [65] := by
  have h := decrypt_entry_points_consistent
    { getConversationKey := fun _ _ => [], decrypt := fun _ _ => some "QQ==" }
    "ct" [] "pk" "QQ==" [65] rfl (by decide)
  exact ⟨by decide, h.1, h.2⟩

/-! ## C2 lemmas: the local map and the shared cache entry stay equal -/

theorem mapSet_append {β : Type} (m : List (Int × β)) (k : Int) (v : β)
    (h : m.any (fun p => decide (p.1 = k)) = false) : mapSet m k v = m ++ [(k, v)] := by
  unfold mapSet
  rw [h]
  simp

theorem handleEvent_sync (ibe : List (String × Int)) (st : FetchState) (ev : ChunkRecord)
    (h : st.chunksByIndex = st.cacheEntry) :
    (handleEvent ibe st ev).chunksByIndex = (handleEvent ibe st ev).cacheEntry := by
  by_cases hseen : st.seenEventIds.contains ev.id = true
  · have hm : ev.id ∈ st.seenEventIds := by simpa using hseen
    simpa [handleEvent, hm] using h
  · have hm : ev.id ∉ st.seenEventIds := by simpa using hseen
    cases hidx : (match parseChunkIndexFromTags ev.tags with
        | some i => some i
        | none => mapGet ibe ev.id) with
    | none => simp [handleEvent, hm, hidx, h]
    | some i =>
      by_cases hany : (st.chunksByIndex.any fun p => decide (p.1 = i)) = true
      · have hany4 : (st.cacheEntry.any fun p => decide (p.1 = i)) = true := h ▸ hany
        simp [handleEvent, hm, hidx, hany4, h]
      · have hany2 : (st.chunksByIndex.any fun p => decide (p.1 = i)) = false := by
          rwa [Bool.not_eq_true] at hany
        have hany3 : (st.cacheEntry.any fun p => decide (p.1 = i)) = false := h ▸ hany2
        simp [handleEvent, hm, hidx, hany3, h]
        exact (mapSet_append _ _ _ hany3).symm

theorem runRound_sync (ibe : List (String × Int)) (total : Nat) :
    ∀ (evs : List ChunkRecord) (st : FetchState), st.chunksByIndex = st.cacheEntry →
      (runRound ibe total st evs).chunksByIndex = (runRound ibe total st evs).cacheEntry := by
  intro evs
  induction evs with
  | nil => intro st h; exact h
  | cons ev evs ih =>
    intro st h
    rw [runRound]
    split
    · exact handleEvent_sync ibe st ev h
    · exact ih _ (handleEvent_sync ibe st ev h)

theorem runBatches_sync (net : NostrFilter → List ChunkRecord) (pubkey : String)
    (ibe : List (String × Int)) (total : Nat) :
    ∀ (bs : List (List String)) (st : FetchState), st.chunksByIndex = st.cacheEntry →
      (runBatches net pubkey ibe total st bs).1.chunksByIndex =
        (runBatches net pubkey ibe total st bs).1.cacheEntry := by
  intro bs
  induction bs with
  | nil => intro st h; exact h
  | cons b bs ih =>
    intro st h
    rw [runBatches]
    have h2 := runRound_sync ibe total (net (idsFilter pubkey b)) st h
    split
    · exact h2
    · exact ih _ h2

theorem runBody_sync (net : NostrFilter → List ChunkRecord) (pubkey fileHash : String)
    (total : Nat) (ibe : List (String × Int)) (st0 : FetchState)
    (h : st0.chunksByIndex = st0.cacheEntry) :
    (runBody net pubkey fileHash total ibe st0).1.chunksByIndex =
      (runBody net pubkey fileHash total ibe st0).1.cacheEntry := by
  unfold runBody
  by_cases hc1 : ibe.length > 0
  · simp only [if_pos hc1]
    by_cases hc2 : (runBatches net pubkey ibe total st0
        (toBatches (ibe.map (fun p => p.1)))).1.chunksByIndex.length < total
    · simp only [if_pos hc2]
      exact runRound_sync ibe total _ _ (runBatches_sync net pubkey ibe total _ _ h)
    · simp only [if_neg hc2]
      exact runBatches_sync net pubkey ibe total _ _ h
  · simp only [if_neg hc1]
    by_cases hc2 : st0.chunksByIndex.length < total
    · simp only [if_pos hc2]
      exact runRound_sync ibe total _ _ h
    · simp only [if_neg hc2]
      exact h

theorem runBody_result (net : NostrFilter → List ChunkRecord) (pubkey fileHash : String)
    (total : Nat) (ibe : List (String × Int)) (st0 : FetchState) :
    (runBody net pubkey fileHash total ibe st0).2.1 =
      sortChunks ((runBody net pubkey fileHash total ibe st0).1.chunksByIndex.map
        (fun p => p.2)) := by
  unfold runBody
  rfl

/-- Claim C2, counterexample: two fetch requests for the same key that
arrive before either completes, where the first operation's relays
deliver only one of the two chunks: two underlying retrieval operations
are started (the second caller re-checks after the first settles, finds
the entry short, and starts fresh work), and the two requests return
different chunk sets — refuting "exactly one underlying retrieval
operation is started" and "both requests observe the same final chunk
set" as unconditional statements. -/
theorem fetchChunks_coalesce_cex :
    opsStartedIn (twoCallerRun
      (fun f => if f.xTags = ["fh"] then
        [{ id := "e0", tags := [["d", "fh:0"]], content := "c0" }] else [])
      (fun f => if f.xTags = ["fh"] then
        [{ id := "e0", tags := [["d", "fh:0"]], content := "c0" },
         { id := "e1", tags := [["d", "fh:1"]], content := "c1" }] else [])
      "pk" "fh" 2 []).trace = 2 ∧
    (twoCallerRun
      (fun f => if f.xTags = ["fh"] then
        [{ id := "e0", tags := [["d", "fh:0"]], content := "c0" }] else [])
      (fun f => if f.xTags = ["fh"] then
        [{ id := "e0", tags := [["d", "fh:0"]], content := "c0" },
         { id := "e1", tags := [["d", "fh:1"]], content := "c1" }] else [])
      "pk" "fh" 2 []).aResult ≠
    (twoCallerRun
      (fun f => if f.xTags = ["fh"] then
        [{ id := "e0", tags := [["d", "fh:0"]], content := "c0" }] else [])
      (fun f => if f.xTags = ["fh"] then
        [{ id := "e0", tags := [["d", "fh:0"]], content := "c0" },
         { id := "e1", tags := [["d", "fh:1"]], content := "c1" }] else [])
      "pk" "fh" 2 []).bResult := by
  constructor
  · decide
  · decide

/-- Claim C2, amended: in the two-caller scenario (both requests for the
same key arrive before either completes), retrieval operations never
overlap — at most one is in flight at any point of the trace — and the
in-flight handle is cleared once the last operation settles; when the
first operation leaves the shared entry holding exactly total_chunks
chunks, exactly one retrieval operation is started in total and both
requests return the same chunk set.  (When the first operation falls
short, the second caller starts a fresh, non-overlapping operation and
may observe a larger chunk set.) -/
theorem fetchChunks_coalesce (net1 net2 : NostrFilter → List ChunkRecord)
    (pubkey fileHash : String) (totalChunks : Nat) (chunkInfos : List ChunkInfo) :
    maxInFlight (twoCallerRun net1 net2 pubkey fileHash totalChunks chunkInfos).trace ≤ 1 ∧
    (twoCallerRun net1 net2 pubkey fileHash totalChunks chunkInfos).inFlightAfter = false ∧
    ((runBody net1 pubkey fileHash totalChunks (buildIndexByEventId chunkInfos)
        (startState [])).1.cacheEntry.length = totalChunks →
      opsStartedIn (twoCallerRun net1 net2 pubkey fileHash totalChunks chunkInfos).trace = 1 ∧
      (twoCallerRun net1 net2 pubkey fileHash totalChunks chunkInfos).aResult =
        (twoCallerRun net1 net2 pubkey fileHash totalChunks chunkInfos).bResult) := by
  have hsync := runBody_sync net1 pubkey fileHash totalChunks
    (buildIndexByEventId chunkInfos) (startState []) rfl
  unfold twoCallerRun
  by_cases h0 : totalChunks = 0
  · simp only [if_pos h0]
    refine ⟨by decide, by trivial, fun hcomp => ⟨by decide, ?_⟩⟩
    have hcache : (runBody net1 pubkey fileHash totalChunks
        (buildIndexByEventId chunkInfos) (startState [])).1.cacheEntry = [] := by
      rw [← List.length_eq_zero]
      omega
    have hchunks : (runBody net1 pubkey fileHash totalChunks
        (buildIndexByEventId chunkInfos) (startState [])).1.chunksByIndex = [] := by
      rw [hsync, hcache]
    rw [runBody_result net1 pubkey fileHash totalChunks
        (buildIndexByEventId chunkInfos) (startState []), hchunks]
    rfl
  · simp only [if_neg h0]
    by_cases hfull : (runBody net1 pubkey fileHash totalChunks
        (buildIndexByEventId chunkInfos) (startState [])).1.cacheEntry.length = totalChunks
    · simp only [if_pos hfull]
      refine ⟨by decide, by trivial, fun _ => ⟨by decide, ?_⟩⟩
      rw [runBody_result net1 pubkey fileHash totalChunks
          (buildIndexByEventId chunkInfos) (startState []), hsync]
    · simp only [if_neg hfull]
      exact ⟨by decide, by trivial, fun hcomp => absurd hcomp hfull⟩

theorem fetchChunks_coalesce_witness :
    (runBody (fun f => if f.xTags = ["fh"] then
        [{ id := "e0", tags := [["d", "fh:0"]], content := "c0" }] else [])
      "pk" "fh" 1 (buildIndexByEventId []) (startState [])).1.cacheEntry.length = 1 ∧
    opsStartedIn (twoCallerRun
      (fun f => if f.xTags = ["fh"] then
        [{ id := "e0", tags := [["d", "fh:0"]], content := "c0" }] else [])
      (fun _ => []) "pk" "fh" 1 []).trace = 1 ∧
    (twoCallerRun
      (fun f => if f.xTags = ["fh"] then
        [{ id := "e0", tags := [["d", "fh:0"]], content := "c0" }] else [])
      (fun _ => []) "pk" "fh" 1 []).aResult =
    (twoCallerRun
      (fun f => if f.xTags = ["fh"] then
        [{ id := "e0", tags := [["d", "fh:0"]], content := "c0" }] else [])
      (fun _ => []) "pk" "fh" 1 []).bResult := by
  have h := (fetchChunks_coalesce
    (fun f => if f.xTags = ["fh"] then
      [{ id := "e0", tags := [["d", "fh:0"]], content := "c0" }] else [])
    (fun _ => []) "pk" "fh" 1 []).2.2 (by decide)
  exact ⟨by decide, h.1, h.2⟩
